import Mathlib

/-!
# Verification of the RFM customer-segmentation pipeline

Shallow embedding of `src/main.py`: the pandas cleaning step (lines 8-11),
the four-table relational load with insert-if-absent semantics
(`ON CONFLICT DO NOTHING`, lines 62-95), and the SQL RFM query
(lines 105-157): the `rfm` CTE (inner joins + GROUP BY aggregates),
the `rfm_ntile` CTE (`NTILE(5)` window buckets), the `rfm_scores` CTE
(score = 6 - bucket), and the final segment CASE expression.

Modelling conventions:
* machine floats (`unit_price FLOAT`) are modelled as `Rat`;
* timestamps are modelled as integers (days);
* the SQL join is a bag (multiset) of rows; we enumerate it items-major
  (`invoice_items` outermost) rather than in the textual `FROM` order.
  Both nested-loop orders produce the same multiset of joined rows, and
  every downstream operation (SUM, COUNT DISTINCT, GROUP BY, NTILE over a
  sorted copy) is a bag operation, so this is semantics-preserving;
* row order of `GROUP BY` output and tie order inside `ORDER BY` are
  unspecified by SQL; the embedding fixes a concrete deterministic order.
-/

namespace RFMPipe

/-- A raw CSV row (`online_retail.csv`); `CustomerID` and `Description`
are nullable, which is what `df.dropna` filters on. -/
structure RawRow where
  invoiceNo : String
  stockCode : String
  description : Option String
  quantity : Int
  invoiceDate : Int
  unitPrice : Rat
  customerID : Option Int
  country : String
deriving DecidableEq, Repr

/-- A row surviving `df.dropna(subset=['CustomerID', 'Description'])`:
both nullable fields are present. -/
structure CleanRow where
  invoiceNo : String
  stockCode : String
  description : String
  quantity : Int
  invoiceDate : Int
  unitPrice : Rat
  customerID : Int
  country : String
deriving DecidableEq, Repr

/-- `main.py` line 9: a row is kept iff both `CustomerID` and
`Description` are non-null. -/
def goodRow (r : RawRow) : Bool :=
  r.customerID.isSome && r.description.isSome

/-- Convert a raw row into a clean row when it survives `dropna`. -/
def cleanRow? (r : RawRow) : Option CleanRow :=
  match r.customerID, r.description with
  | some c, some d =>
      some ⟨r.invoiceNo, r.stockCode, d, r.quantity, r.invoiceDate,
            r.unitPrice, c, r.country⟩
  | _, _ => none

/-- The cleaned dataframe `df` after line 9. -/
def cleanRows (rows : List RawRow) : List CleanRow :=
  rows.filterMap cleanRow?

/-! ## Deduplication (pandas `drop_duplicates`, keeps first occurrence) -/

def firstDedupAux {α : Type} [DecidableEq α] (seen : List α) :
    List α → List α
  | [] => []
  | a :: l =>
      if a ∈ seen then firstDedupAux seen l
      else a :: firstDedupAux (a :: seen) l

/-- `drop_duplicates`: remove later copies of an element, keeping the
first occurrence, preserving order. -/
def firstDedup {α : Type} [DecidableEq α] (l : List α) : List α :=
  firstDedupAux [] l

/-! ## Entity rows and the relational store -/

structure CustRow where
  customer_id : Int
  country : String
deriving DecidableEq, Repr

structure ProdRow where
  stock_code : String
  description : String
  unit_price : Rat
deriving DecidableEq, Repr

structure InvRow where
  invoice_no : String
  invoice_date : Int
  customer_id : Int
deriving DecidableEq, Repr

structure ItemRow where
  invoice_no : String
  stock_code : String
  quantity : Int
deriving DecidableEq, Repr

/-- The four base tables of the schema (`main.py` lines 35-58). -/
structure DB where
  customers : List CustRow
  products : List ProdRow
  invoices : List InvRow
  items : List ItemRow
deriving DecidableEq, Repr

/-- Does the table hold a row with the given key? -/
def keyMem {ρ κ : Type} [DecidableEq κ] (key : ρ → κ) (t : List ρ)
    (k : κ) : Bool :=
  t.any fun x => key x = k

/-- One `INSERT ... ON CONFLICT (key) DO NOTHING`: append the row unless
its key is already present (first write wins). -/
def insertIfAbsent {ρ κ : Type} [DecidableEq κ] (key : ρ → κ)
    (t : List ρ) (r : ρ) : List ρ :=
  if keyMem key t (key r) then t else t ++ [r]

/-- The per-row insertion loop over a candidate list. -/
def loadTable {ρ κ : Type} [DecidableEq κ] (key : ρ → κ)
    (init : List ρ) (rows : List ρ) : List ρ :=
  rows.foldl (insertIfAbsent key) init

/-! ## Normalizer candidate sets (`main.py` lines 63, 72, 81, 90) -/

def custProj (r : CleanRow) : CustRow := ⟨r.customerID, r.country⟩
def prodProj (r : CleanRow) : ProdRow :=
  ⟨r.stockCode, r.description, r.unitPrice⟩
def invProj (r : CleanRow) : InvRow :=
  ⟨r.invoiceNo, r.invoiceDate, r.customerID⟩
def itemProj (r : CleanRow) : ItemRow :=
  ⟨r.invoiceNo, r.stockCode, r.quantity⟩

/-- `df[['CustomerID', 'Country']].drop_duplicates()`. -/
def custCand (rows : List RawRow) : List CustRow :=
  firstDedup ((cleanRows rows).map custProj)

/-- `df[['StockCode', 'Description', 'UnitPrice']].drop_duplicates()`. -/
def prodCand (rows : List RawRow) : List ProdRow :=
  firstDedup ((cleanRows rows).map prodProj)

/-- `df[['InvoiceNo', 'InvoiceDate', 'CustomerID']].drop_duplicates()`. -/
def invCand (rows : List RawRow) : List InvRow :=
  firstDedup ((cleanRows rows).map invProj)

/-- `df[['InvoiceNo', 'StockCode', 'Quantity']]` — NOT deduplicated. -/
def itemCand (rows : List RawRow) : List ItemRow :=
  (cleanRows rows).map itemProj

/-- The database contents after the four load phases (steps 4-7). -/
def buildDB (raw : List RawRow) : DB :=
  { customers := loadTable CustRow.customer_id [] (custCand raw)
    products := loadTable ProdRow.stock_code [] (prodCand raw)
    invoices := loadTable InvRow.invoice_no [] (invCand raw)
    items := itemCand raw }

/-! ## Segment classification (`main.py` lines 150-156) -/

/-- The `CASE` expression assigning a segment from the three scores. -/
def segment (r f m : Int) : String :=
  if r = 5 ∧ f = 5 ∧ m = 5 then "Champions"
  else if 4 ≤ r ∧ 4 ≤ f then "Loyal Customers"
  else if m = 5 then "Big Spenders"
  else if r = 1 then "Lost"
  else "Others"

/-- A classification rule: a predicate on the three scores and a label. -/
def SegRule : Type := (Int → Int → Int → Bool) × String

/-- The four guarded rules of the CASE expression, in source order. -/
def segmentRules : List SegRule :=
  [(fun r f m => r == 5 && f == 5 && m == 5, "Champions"),
   (fun r f _ => decide (4 ≤ r) && decide (4 ≤ f), "Loyal Customers"),
   (fun _ _ m => m == 5, "Big Spenders"),
   (fun r _ _ => r == 1, "Lost")]

/-- First-match evaluation of an ordered rule list, with default
`"Others"` (the CASE `ELSE` branch): no fallthrough. -/
def firstMatch : List SegRule → Int → Int → Int → String
  | [], _, _, _ => "Others"
  | rule :: rest, r, f, m =>
      if rule.1 r f m then rule.2 else firstMatch rest r f m

/-- C1: the CASE segment assignment is exactly first-match evaluation of
the four rules in their fixed source order with `"Others"` as default; in
particular scores (5,5,5) yield `"Champions"` even though the
`"Loyal Customers"` rule (index 1) also matches there. -/
theorem C1_segment_first_match :
    (∀ r f m : Int, segment r f m = firstMatch segmentRules r f m) ∧
    segment 5 5 5 = "Champions" ∧
    (segmentRules[1]?.map fun rule => rule.1 5 5 5) = some true ∧
    segment 5 5 5 ≠ "Loyal Customers" := by
  refine ⟨?_, by decide, by decide, by decide⟩
  intro r f m
  simp only [segment, firstMatch, segmentRules, Bool.and_eq_true,
    beq_iff_eq, decide_eq_true_eq, and_assoc]

/-! ## Basic lemmas about dedup and the insert-if-absent store -/

theorem mem_firstDedupAux {α : Type} [DecidableEq α] (x : α) :
    ∀ (l seen : List α),
      x ∈ firstDedupAux seen l ↔ x ∈ l ∧ x ∉ seen := by
  intro l
  induction l with
  | nil => intro seen; simp [firstDedupAux]
  | cons a t ih =>
      intro seen
      by_cases ha : a ∈ seen
      · simp only [firstDedupAux, if_pos ha, ih, List.mem_cons]
        constructor
        · rintro ⟨hx, hs⟩; exact ⟨Or.inr hx, hs⟩
        · rintro ⟨hx | hx, hs⟩
          · exact absurd (hx ▸ ha) hs
          · exact ⟨hx, hs⟩
      · simp only [firstDedupAux, if_neg ha, List.mem_cons, ih]
        by_cases hx : x = a
        · subst hx; simp [ha]
        · simp [hx]

theorem mem_firstDedup {α : Type} [DecidableEq α] {x : α} {l : List α} :
    x ∈ firstDedup l ↔ x ∈ l := by
  simp [firstDedup, mem_firstDedupAux]

theorem nodup_firstDedupAux {α : Type} [DecidableEq α] :
    ∀ (l seen : List α), (firstDedupAux seen l).Nodup := by
  intro l
  induction l with
  | nil => intro seen; simp [firstDedupAux]
  | cons a t ih =>
      intro seen
      by_cases ha : a ∈ seen
      · simpa [firstDedupAux, if_pos ha] using ih seen
      · simp only [firstDedupAux, if_neg ha, List.nodup_cons]
        refine ⟨?_, ih (a :: seen)⟩
        intro hmem
        exact ((mem_firstDedupAux a t (a :: seen)).mp hmem).2 (by simp)

theorem nodup_firstDedup {α : Type} [DecidableEq α] (l : List α) :
    (firstDedup l).Nodup :=
  nodup_firstDedupAux l []

theorem keyMem_iff {ρ κ : Type} [DecidableEq κ] (key : ρ → κ)
    (t : List ρ) (k : κ) :
    keyMem key t k = true ↔ ∃ x ∈ t, key x = k := by
  unfold keyMem
  simp

theorem keyMem_iff_mem_map {ρ κ : Type} [DecidableEq κ] (key : ρ → κ)
    (t : List ρ) (k : κ) :
    keyMem key t k = true ↔ k ∈ t.map key := by
  rw [keyMem_iff]
  exact List.mem_map.symm

theorem keyMem_insertIfAbsent {ρ κ : Type} [DecidableEq κ] (key : ρ → κ)
    (t : List ρ) (r : ρ) (k : κ) :
    keyMem key (insertIfAbsent key t r) k = true ↔
      keyMem key t k = true ∨ key r = k := by
  unfold insertIfAbsent
  by_cases h : keyMem key t (key r) = true
  · rw [if_pos h]
    constructor
    · exact Or.inl
    · rintro (hk | hk)
      · exact hk
      · subst hk; exact h
  · rw [if_neg h]
    simp only [keyMem_iff, List.mem_append, List.mem_singleton]
    constructor
    · rintro ⟨x, hx | hx, hk⟩
      · exact Or.inl ⟨x, hx, hk⟩
      · subst hx; exact Or.inr hk
    · rintro (⟨x, hx, hk⟩ | hk)
      · exact ⟨x, Or.inl hx, hk⟩
      · exact ⟨r, Or.inr rfl, hk⟩

theorem mem_insertIfAbsent {ρ κ : Type} [DecidableEq κ] (key : ρ → κ)
    {t : List ρ} {r x : ρ} (hx : x ∈ insertIfAbsent key t r) :
    x ∈ t ∨ x = r := by
  unfold insertIfAbsent at hx
  by_cases h : keyMem key t (key r) = true
  · rw [if_pos h] at hx; exact Or.inl hx
  · rw [if_neg h] at hx
    rcases List.mem_append.mp hx with h1 | h1
    · exact Or.inl h1
    · exact Or.inr (List.mem_singleton.mp h1)

theorem loadTable_cons {ρ κ : Type} [DecidableEq κ] (key : ρ → κ)
    (init : List ρ) (r : ρ) (rows : List ρ) :
    loadTable key init (r :: rows) =
      loadTable key (insertIfAbsent key init r) rows := rfl

theorem keyMem_loadTable {ρ κ : Type} [DecidableEq κ] (key : ρ → κ) :
    ∀ (rows init : List ρ) (k : κ),
      keyMem key (loadTable key init rows) k = true ↔
        keyMem key init k = true ∨ ∃ r ∈ rows, key r = k := by
  intro rows
  induction rows with
  | nil => intro init k; simp [loadTable]
  | cons r rs ih =>
      intro init k
      rw [loadTable_cons, ih]
      rw [keyMem_insertIfAbsent]
      simp only [List.mem_cons]
      constructor
      · rintro ((h | h) | ⟨x, hx, hk⟩)
        · exact Or.inl h
        · exact Or.inr ⟨r, Or.inl rfl, h⟩
        · exact Or.inr ⟨x, Or.inr hx, hk⟩
      · rintro (h | ⟨x, hx | hx, hk⟩)
        · exact Or.inl (Or.inl h)
        · subst hx; exact Or.inl (Or.inr hk)
        · exact Or.inr ⟨x, hx, hk⟩

theorem mem_loadTable {ρ κ : Type} [DecidableEq κ] (key : ρ → κ) :
    ∀ (rows init : List ρ) (x : ρ),
      x ∈ loadTable key init rows → x ∈ init ∨ x ∈ rows := by
  intro rows
  induction rows with
  | nil => intro init x hx; exact Or.inl hx
  | cons r rs ih =>
      intro init x hx
      rw [loadTable_cons] at hx
      rcases ih _ x hx with h | h
      · rcases mem_insertIfAbsent key h with h1 | h1
        · exact Or.inl h1
        · subst h1; exact Or.inr (List.mem_cons_self _ _)
      · exact Or.inr (List.mem_cons_of_mem _ h)

theorem nodup_keys_loadTable {ρ κ : Type} [DecidableEq κ] (key : ρ → κ) :
    ∀ (rows init : List ρ), (init.map key).Nodup →
      ((loadTable key init rows).map key).Nodup := by
  intro rows
  induction rows with
  | nil => intro init h; exact h
  | cons r rs ih =>
      intro init h
      rw [loadTable_cons]
      refine ih _ ?_
      unfold insertIfAbsent
      by_cases hk : keyMem key init (key r) = true
      · rw [if_pos hk]; exact h
      · rw [if_neg hk]
        rw [List.map_append, List.map_singleton]
        rw [List.nodup_append]
        refine ⟨h, List.nodup_singleton _, ?_⟩
        intro a ha hb
        rw [List.mem_singleton] at hb
        subst hb
        exact hk ((keyMem_iff_mem_map key init (key r)).mpr ha)

theorem loadTable_eq_of_keyMem {ρ κ : Type} [DecidableEq κ] (key : ρ → κ) :
    ∀ (rows t : List ρ),
      (∀ r ∈ rows, keyMem key t (key r) = true) →
      loadTable key t rows = t := by
  intro rows
  induction rows with
  | nil => intro t _; rfl
  | cons r rs ih =>
      intro t h
      rw [loadTable_cons]
      have hr : insertIfAbsent key t r = t := by
        unfold insertIfAbsent
        rw [if_pos (h r (List.mem_cons_self _ _))]
      rw [hr]
      exact ih t fun x hx => h x (List.mem_cons_of_mem _ hx)

theorem loadTable_idem {ρ κ : Type} [DecidableEq κ] (key : ρ → κ)
    (rows : List ρ) :
    loadTable key (loadTable key [] rows) rows = loadTable key [] rows := by
  apply loadTable_eq_of_keyMem
  intro r hr
  exact (keyMem_loadTable key rows [] (key r)).mpr (Or.inr ⟨r, hr, rfl⟩)

/-- C7: the Customer/Product/Invoice upserts are insert-if-absent by
primary key, so re-loading the same candidate list into the already
loaded table changes nothing (first write wins, no error path), and the
loaded tables never hold two rows with the same primary key. -/
theorem C7_idempotent_upsert_load (cs : List CustRow) (ps : List ProdRow)
    (vs : List InvRow) :
    loadTable CustRow.customer_id
        (loadTable CustRow.customer_id [] cs) cs =
      loadTable CustRow.customer_id [] cs ∧
    loadTable ProdRow.stock_code
        (loadTable ProdRow.stock_code [] ps) ps =
      loadTable ProdRow.stock_code [] ps ∧
    loadTable InvRow.invoice_no
        (loadTable InvRow.invoice_no [] vs) vs =
      loadTable InvRow.invoice_no [] vs ∧
    ((loadTable CustRow.customer_id [] cs).map CustRow.customer_id).Nodup ∧
    ((loadTable ProdRow.stock_code [] ps).map ProdRow.stock_code).Nodup ∧
    ((loadTable InvRow.invoice_no [] vs).map InvRow.invoice_no).Nodup :=
  ⟨loadTable_idem _ cs, loadTable_idem _ ps, loadTable_idem _ vs,
   nodup_keys_loadTable _ cs [] (by simp),
   nodup_keys_loadTable _ ps [] (by simp),
   nodup_keys_loadTable _ vs [] (by simp)⟩

/-- Row lookup in a loaded table: the first candidate row carrying the
key wins (`ON CONFLICT DO NOTHING` = first write wins). -/
theorem find?_loadTable {ρ κ : Type} [DecidableEq κ] (key : ρ → κ) :
    ∀ (rows init : List ρ) (k : κ),
      (loadTable key init rows).find? (fun x => key x = k) =
        (init.find? (fun x => key x = k)).or
          (rows.find? (fun x => key x = k)) := by
  intro rows
  induction rows with
  | nil => intro init k; simp [loadTable]
  | cons r rs ih =>
      intro init k
      rw [loadTable_cons, ih]
      by_cases hc : keyMem key init (key r) = true
      · have hins : insertIfAbsent key init r = init := by
          unfold insertIfAbsent; rw [if_pos hc]
        rw [hins]
        by_cases hk : key r = k
        · obtain ⟨x, hx, hpx⟩ := (keyMem_iff key init k).mp (hk ▸ hc)
          have : ∃ x, x ∈ init ∧ (fun y => decide (key y = k)) x = true :=
            ⟨x, hx, by simpa using hpx⟩
          obtain ⟨y, hy⟩ :=
            Option.isSome_iff_exists.mp (List.find?_isSome.mpr this)
          rw [hy, Option.or_some, Option.or_some]
        · rw [List.find?_cons_of_neg _ (by simp [hk])]
      · have hins : insertIfAbsent key init r = init ++ [r] := by
          unfold insertIfAbsent; rw [if_neg hc]
        rw [hins, List.find?_append, Option.or_assoc]
        congr 1
        by_cases hk : key r = k
        · rw [List.find?_cons_of_pos (l := rs) (by simp [hk]),
              List.find?_cons_of_pos (l := ([] : List ρ)) (by simp [hk]),
              Option.or_some]
        · rw [List.find?_cons_of_neg (l := rs) (by simp [hk]),
              List.find?_cons_of_neg (l := ([] : List ρ)) (by simp [hk]),
              List.find?_nil, Option.none_or]

/-! ## C5: the dropna completeness filter -/

theorem cleanRow?_eq_none_of_bad {r : RawRow}
    (h : r.customerID = none ∨ r.description = none) :
    cleanRow? r = none := by
  unfold cleanRow?
  rcases h with h | h
  · rw [h]
  · rw [h]
    cases r.customerID <;> rfl

theorem cleanRows_filter_good : ∀ rows : List RawRow,
    cleanRows (rows.filter goodRow) = cleanRows rows := by
  intro rows
  induction rows with
  | nil => rfl
  | cons r rs ih =>
      by_cases h : goodRow r = true
      · rw [List.filter_cons_of_pos h]
        unfold cleanRows at *
        rw [List.filterMap_cons, List.filterMap_cons]
        cases cleanRow? r <;> rw [ih]
      · rw [List.filter_cons_of_neg (by simpa using h)]
        unfold cleanRows at *
        rw [List.filterMap_cons]
        have : cleanRow? r = none := by
          unfold goodRow at h
          apply cleanRow?_eq_none_of_bad
          rcases Bool.and_eq_false_iff.mp (Bool.eq_false_iff.mpr h)
            with h1 | h1
          · exact Or.inl (Option.not_isSome_iff_eq_none.mp (by simp [h1]))
          · exact Or.inr (Option.not_isSome_iff_eq_none.mp (by simp [h1]))
        rw [this, ih]

/-- C5: a raw row with a null customer id or a null description is
discarded by `dropna` and contributes to none of the four candidate
sets — all four are unchanged if the bad rows are removed up front — and
every surviving row is fully represented: its four projections appear in
the respective candidate sets. -/
theorem C5_completeness_filter (rows : List RawRow) :
    (custCand (rows.filter goodRow) = custCand rows ∧
     prodCand (rows.filter goodRow) = prodCand rows ∧
     invCand (rows.filter goodRow) = invCand rows ∧
     itemCand (rows.filter goodRow) = itemCand rows) ∧
    (∀ r ∈ rows, (r.customerID = none ∨ r.description = none) →
      cleanRow? r = none) ∧
    (∀ r ∈ rows, ∀ cr : CleanRow, cleanRow? r = some cr →
      custProj cr ∈ custCand rows ∧ prodProj cr ∈ prodCand rows ∧
      invProj cr ∈ invCand rows ∧ itemProj cr ∈ itemCand rows) := by
  refine ⟨?_, ?_, ?_⟩
  · unfold custCand prodCand invCand itemCand
    rw [cleanRows_filter_good]
    exact ⟨rfl, rfl, rfl, rfl⟩
  · intro r _ h
    exact cleanRow?_eq_none_of_bad h
  · intro r hr cr hcr
    have hmem : cr ∈ cleanRows rows :=
      List.mem_filterMap.mpr ⟨r, hr, hcr⟩
    refine ⟨?_, ?_, ?_, ?_⟩
    · exact mem_firstDedup.mpr (List.mem_map_of_mem custProj hmem)
    · exact mem_firstDedup.mpr (List.mem_map_of_mem prodProj hmem)
    · exact mem_firstDedup.mpr (List.mem_map_of_mem invProj hmem)
    · exact List.mem_map_of_mem itemProj hmem

/-- Concrete example data: one row with a null customer id, one row with
a null description, and two fully populated rows. -/
def badRaw : RawRow :=
  ⟨"I9", "S9", some "thing", 1, 10, 1, none, "UK"⟩

def badRaw2 : RawRow :=
  ⟨"I8", "S8", none, 1, 10, 1, some 8, "UK"⟩

def goodRaw : RawRow :=
  ⟨"I1", "S1", some "widget", 2, 5, 3, some 1, "UK"⟩

def goodRaw2 : RawRow :=
  ⟨"I2", "S1", some "widget", 1, 7, 3, some 1, "UK"⟩

def rawExample : List RawRow := [badRaw, goodRaw, badRaw2, goodRaw2]

def goodClean : CleanRow :=
  ⟨"I1", "S1", "widget", 2, 5, 3, 1, "UK"⟩

theorem C5_witness :
    badRaw ∈ rawExample ∧ badRaw.customerID = none ∧
    cleanRow? badRaw = none ∧
    cleanRow? goodRaw = some goodClean ∧
    custProj goodClean ∈ custCand rawExample := by
  have h := C5_completeness_filter rawExample
  refine ⟨by decide, rfl, h.2.1 badRaw (by decide) (Or.inl rfl), by decide,
    (h.2.2 goodRaw (by decide) goodClean (by decide)).1⟩

/-! ## C8: the checked load pipeline never raises ReferentialError

The schema (`main.py` lines 35-58) declares `REFERENCES` constraints; the
store rejects an insert whose foreign key does not resolve. We model each
insert with its referential check and show the error branch is
unreachable when the phases run in the source's fixed order. -/

def emptyDB : DB := ⟨[], [], [], []⟩

def insertCustomerE (db : DB) (c : CustRow) : Except String DB :=
  Except.ok
    { db with customers := insertIfAbsent CustRow.customer_id db.customers c }

def insertProductE (db : DB) (p : ProdRow) : Except String DB :=
  Except.ok
    { db with products := insertIfAbsent ProdRow.stock_code db.products p }

/-- Invoice insert: on key conflict do nothing; otherwise the row is
inserted only if its `customer_id` resolves, else `ReferentialError`. -/
def insertInvoiceE (db : DB) (i : InvRow) : Except String DB :=
  if keyMem InvRow.invoice_no db.invoices i.invoice_no then Except.ok db
  else if keyMem CustRow.customer_id db.customers i.customer_id then
    Except.ok { db with invoices := db.invoices ++ [i] }
  else Except.error "ReferentialError"

/-- Item insert: unconditional append, but both references must resolve,
else `ReferentialError`. -/
def insertItemE (db : DB) (ii : ItemRow) : Except String DB :=
  if keyMem InvRow.invoice_no db.invoices ii.invoice_no &&
      keyMem ProdRow.stock_code db.products ii.stock_code then
    Except.ok { db with items := db.items ++ [ii] }
  else Except.error "ReferentialError"

/-- Run one load phase row by row, aborting on the first error. -/
def loadPhase {ρ : Type} (ins : DB → ρ → Except String DB) :
    DB → List ρ → Except String DB
  | db, [] => Except.ok db
  | db, r :: rs =>
      match ins db r with
      | Except.ok db' => loadPhase ins db' rs
      | Except.error e => Except.error e

/-- Error-propagating sequencing of two pipeline stages. -/
def exBind (e : Except String DB) (f : DB → Except String DB) :
    Except String DB :=
  match e with
  | Except.error msg => Except.error msg
  | Except.ok db => f db

theorem exBind_ok (db : DB) (f : DB → Except String DB) :
    exBind (Except.ok db) f = f db := rfl

/-- The full load in the source's phase order: customers, then products,
then invoices, then invoice items (steps 4-7). -/
def runPipeline (raw : List RawRow) : Except String DB :=
  exBind (loadPhase insertCustomerE emptyDB (custCand raw)) fun db1 =>
    exBind (loadPhase insertProductE db1 (prodCand raw)) fun db2 =>
      exBind (loadPhase insertInvoiceE db2 (invCand raw)) fun db3 =>
        loadPhase insertItemE db3 (itemCand raw)

theorem loadPhase_customers : ∀ (cs : List CustRow) (db : DB),
    loadPhase insertCustomerE db cs =
      Except.ok
        { db with
            customers := loadTable CustRow.customer_id db.customers cs } := by
  intro cs
  induction cs with
  | nil => intro db; rfl
  | cons c cs ih =>
      intro db
      show loadPhase insertCustomerE
        { db with
            customers := insertIfAbsent CustRow.customer_id db.customers c }
        cs = _
      rw [ih]
      rfl

theorem loadPhase_products : ∀ (ps : List ProdRow) (db : DB),
    loadPhase insertProductE db ps =
      Except.ok
        { db with
            products := loadTable ProdRow.stock_code db.products ps } := by
  intro ps
  induction ps with
  | nil => intro db; rfl
  | cons p ps ih =>
      intro db
      show loadPhase insertProductE
        { db with
            products := insertIfAbsent ProdRow.stock_code db.products p }
        ps = _
      rw [ih]
      rfl

theorem loadPhase_invoices : ∀ (vs : List InvRow) (db : DB),
    (∀ i ∈ vs, keyMem CustRow.customer_id db.customers i.customer_id
        = true) →
    loadPhase insertInvoiceE db vs =
      Except.ok
        { db with
            invoices := loadTable InvRow.invoice_no db.invoices vs } := by
  intro vs
  induction vs with
  | nil => intro db _; rfl
  | cons v vs ih =>
      intro db h
      have hins : insertInvoiceE db v =
          Except.ok
            { db with
                invoices := insertIfAbsent InvRow.invoice_no db.invoices v }
          := by
        unfold insertInvoiceE insertIfAbsent
        by_cases hc : keyMem InvRow.invoice_no db.invoices v.invoice_no
          = true
        · rw [if_pos hc, if_pos hc]
        · rw [if_neg hc, if_neg hc,
            if_pos (h v (List.mem_cons_self _ _))]
      show (match insertInvoiceE db v with
        | Except.ok db' => loadPhase insertInvoiceE db' vs
        | Except.error e => Except.error e) = _
      rw [hins]
      show loadPhase insertInvoiceE
        { db with
            invoices := insertIfAbsent InvRow.invoice_no db.invoices v }
        vs = _
      have hrec := ih
        { db with
            invoices := insertIfAbsent InvRow.invoice_no db.invoices v }
        (fun i hi => h i (List.mem_cons_of_mem _ hi))
      rw [hrec]
      rfl

theorem loadPhase_items : ∀ (xs : List ItemRow) (db : DB),
    (∀ ii ∈ xs, keyMem InvRow.invoice_no db.invoices ii.invoice_no = true
      ∧ keyMem ProdRow.stock_code db.products ii.stock_code = true) →
    loadPhase insertItemE db xs =
      Except.ok { db with items := db.items ++ xs } := by
  intro xs
  induction xs with
  | nil =>
      intro db _
      rw [List.append_nil]
      rfl
  | cons x xs ih =>
      intro db h
      have hins : insertItemE db x =
          Except.ok { db with items := db.items ++ [x] } := by
        unfold insertItemE
        rw [if_pos]
        rw [(h x (List.mem_cons_self _ _)).1,
          (h x (List.mem_cons_self _ _)).2]
        rfl
      show (match insertItemE db x with
        | Except.ok db' => loadPhase insertItemE db' xs
        | Except.error e => Except.error e) = _
      rw [hins]
      show loadPhase insertItemE { db with items := db.items ++ [x] } xs = _
      have hrec := ih { db with items := db.items ++ [x] }
        (fun i hi => h i (List.mem_cons_of_mem _ hi))
      rw [hrec, List.append_assoc]
      rfl

theorem invCand_fk (raw : List RawRow) :
    ∀ i ∈ invCand raw,
      keyMem CustRow.customer_id
        (loadTable CustRow.customer_id [] (custCand raw)) i.customer_id
        = true := by
  intro i hi
  obtain ⟨cr, hcr, hproj⟩ := List.mem_map.mp (mem_firstDedup.mp hi)
  apply (keyMem_loadTable _ _ _ _).mpr
  refine Or.inr ⟨custProj cr, ?_, ?_⟩
  · exact mem_firstDedup.mpr (List.mem_map_of_mem custProj hcr)
  · rw [← hproj]; rfl

theorem itemCand_fk (raw : List RawRow) :
    ∀ ii ∈ itemCand raw,
      keyMem InvRow.invoice_no
          (loadTable InvRow.invoice_no [] (invCand raw)) ii.invoice_no
        = true ∧
      keyMem ProdRow.stock_code
          (loadTable ProdRow.stock_code [] (prodCand raw)) ii.stock_code
        = true := by
  intro ii hii
  obtain ⟨cr, hcr, hproj⟩ := List.mem_map.mp hii
  constructor
  · apply (keyMem_loadTable _ _ _ _).mpr
    refine Or.inr ⟨invProj cr, ?_, ?_⟩
    · exact mem_firstDedup.mpr (List.mem_map_of_mem invProj hcr)
    · rw [← hproj]; rfl
  · apply (keyMem_loadTable _ _ _ _).mpr
    refine Or.inr ⟨prodProj cr, ?_, ?_⟩
    · exact mem_firstDedup.mpr (List.mem_map_of_mem prodProj hcr)
    · rw [← hproj]; rfl

/-- C8: with the load phases in the source's fixed order (all customers,
then all products, then all invoices, then all invoice items, each
projected from the same filtered row set), every foreign key resolves at
insert time and the `ReferentialError` branch is unreachable: the checked
pipeline returns exactly the unchecked table contents. -/
theorem C8_referential_integrity (raw : List RawRow) :
    runPipeline raw = Except.ok (buildDB raw) := by
  unfold runPipeline
  rw [loadPhase_customers]
  simp only [exBind_ok, emptyDB]
  rw [loadPhase_products]
  simp only [exBind_ok]
  rw [loadPhase_invoices (invCand raw)
    { customers := loadTable CustRow.customer_id [] (custCand raw)
      products := loadTable ProdRow.stock_code [] (prodCand raw)
      invoices := []
      items := [] } (invCand_fk raw)]
  simp only [exBind_ok]
  rw [loadPhase_items (itemCand raw)
    { customers := loadTable CustRow.customer_id [] (custCand raw)
      products := loadTable ProdRow.stock_code [] (prodCand raw)
      invoices := loadTable InvRow.invoice_no [] (invCand raw)
      items := [] } (itemCand_fk raw)]
  rfl

/-! ## The `rfm` CTE: four-table inner join and per-customer aggregates

The SQL `FROM customers c JOIN invoices i ... JOIN invoice_items ii ...
JOIN products p ...` produces a bag of joined rows; we enumerate it
items-major (each nested-loop order yields the same multiset, and all
downstream operations are bag operations). -/

/-- One row of the joined relation, keeping the columns the query uses. -/
structure JRow where
  customer_id : Int
  invoice_no : String
  invoice_date : Int
  quantity : Int
  unit_price : Rat
deriving DecidableEq, Repr

/-- The inner join of the four base tables (`main.py` lines 113-116). -/
def joined (db : DB) : List JRow :=
  db.items.flatMap fun ii =>
    (db.invoices.filter fun i =>
        i.invoice_no = ii.invoice_no).flatMap fun i =>
      (db.customers.filter fun c =>
          c.customer_id = i.customer_id).flatMap fun c =>
        (db.products.filter fun p =>
            p.stock_code = ii.stock_code).map fun p =>
          ⟨c.customer_id, i.invoice_no, i.invoice_date, ii.quantity,
           p.unit_price⟩

theorem mem_joined {db : DB} {j : JRow} :
    j ∈ joined db ↔
      ∃ ii ∈ db.items, ∃ i ∈ db.invoices, ∃ c ∈ db.customers,
        ∃ p ∈ db.products,
        i.invoice_no = ii.invoice_no ∧ c.customer_id = i.customer_id ∧
        p.stock_code = ii.stock_code ∧
        j = ⟨c.customer_id, i.invoice_no, i.invoice_date, ii.quantity,
             p.unit_price⟩ := by
  unfold joined
  constructor
  · intro hj
    obtain ⟨ii, hii, hj⟩ := List.mem_flatMap.mp hj
    obtain ⟨i, hi, hj⟩ := List.mem_flatMap.mp hj
    obtain ⟨c, hc, hj⟩ := List.mem_flatMap.mp hj
    obtain ⟨p, hp, hj⟩ := List.mem_map.mp hj
    obtain ⟨hi1, hi2⟩ := List.mem_filter.mp hi
    obtain ⟨hc1, hc2⟩ := List.mem_filter.mp hc
    obtain ⟨hp1, hp2⟩ := List.mem_filter.mp hp
    exact ⟨ii, hii, i, hi1, c, hc1, p, hp1, of_decide_eq_true hi2,
      of_decide_eq_true hc2, of_decide_eq_true hp2, hj.symm⟩
  · rintro ⟨ii, hii, i, hi, c, hc, p, hp, h1, h2, h3, rfl⟩
    refine List.mem_flatMap.mpr ⟨ii, hii, ?_⟩
    refine List.mem_flatMap.mpr
      ⟨i, List.mem_filter.mpr ⟨hi, decide_eq_true h1⟩, ?_⟩
    refine List.mem_flatMap.mpr
      ⟨c, List.mem_filter.mpr ⟨hc, decide_eq_true h2⟩, ?_⟩
    exact List.mem_map.mpr
      ⟨p, List.mem_filter.mpr ⟨hp, decide_eq_true h3⟩, rfl⟩

/-- The rows of the join grouped under one `customer_id` (`GROUP BY`). -/
def groupRows (db : DB) (c : Int) : List JRow :=
  (joined db).filter fun j => j.customer_id = c

/-- `COUNT(DISTINCT _)`: the number of distinct values in a column. -/
def countDistinct {α : Type} [DecidableEq α] (l : List α) : ℕ :=
  l.dedup.length

/-- `MAX` over a column (the callers only use it on nonempty groups). -/
def listMax : List Int → Int
  | [] => 0
  | a :: t => t.foldl max a

/-- `DATE_PART('day', CURRENT_DATE - MAX(i.invoice_date))`. -/
def recencyOf (today : Int) (db : DB) (c : Int) : Int :=
  today - listMax ((groupRows db c).map fun j => j.invoice_date)

/-- `COUNT(DISTINCT i.invoice_no)`. -/
def frequencyOf (db : DB) (c : Int) : ℕ :=
  countDistinct ((groupRows db c).map fun j => j.invoice_no)

/-- `SUM(ii.quantity * p.unit_price)`. -/
def monetaryOf (db : DB) (c : Int) : Rat :=
  ((groupRows db c).map fun j => (j.quantity : Rat) * j.unit_price).sum

/-- One row of the `rfm` CTE. -/
structure RFMBase where
  customer_id : Int
  recency : Int
  frequency : ℕ
  monetary : Rat
deriving DecidableEq, Repr

/-- The `rfm` CTE: one aggregate row per customer appearing in the join
(`GROUP BY c.customer_id`; groups exist only for customers with at least
one joined row). -/
def rfmBase (today : Int) (db : DB) : List RFMBase :=
  (firstDedup ((joined db).map fun j => j.customer_id)).map fun c =>
    ⟨c, recencyOf today db c, frequencyOf db c, monetaryOf db c⟩

/-! ## The `rfm_ntile`, `rfm_scores` CTEs and the final SELECT -/

/-- `NTILE(5)` bucket of the row at 0-based position `i` in a window of
`N` rows: the first `N % 5` buckets take `N / 5 + 1` rows, the remaining
buckets take `N / 5` rows. -/
def ntileBucket (N i : ℕ) : ℕ :=
  if i < (N % 5) * (N / 5 + 1) then i / (N / 5 + 1) + 1
  else (i - (N % 5) * (N / 5 + 1)) / (N / 5) + (N % 5) + 1

/-- The `NTILE(5) OVER (ORDER BY _)` value of a customer: the bucket of
its position in the sorted window. -/
def ntileIn (sorted : List RFMBase) (c : Int) : ℕ :=
  ntileBucket sorted.length (sorted.findIdx fun r => r.customer_id = c)

/-- `ORDER BY recency ASC` (stable; tie order is unspecified in SQL). -/
def sortRecAsc (l : List RFMBase) : List RFMBase :=
  List.insertionSort (fun a b => a.recency ≤ b.recency) l

/-- `ORDER BY frequency DESC`. -/
def sortFreqDesc (l : List RFMBase) : List RFMBase :=
  List.insertionSort (fun a b => b.frequency ≤ a.frequency) l

/-- `ORDER BY monetary DESC`. -/
def sortMonDesc (l : List RFMBase) : List RFMBase :=
  List.insertionSort (fun a b => b.monetary ≤ a.monetary) l

/-- One row of the `rfm_ntile` CTE. -/
structure NtRow where
  customer_id : Int
  recency : Int
  frequency : ℕ
  monetary : Rat
  r_ntile : ℕ
  f_ntile : ℕ
  m_ntile : ℕ
deriving DecidableEq, Repr

/-- The `rfm_ntile` CTE (`main.py` lines 119-129). -/
def rfmNtile (today : Int) (db : DB) : List NtRow :=
  (rfmBase today db).map fun r =>
    ⟨r.customer_id, r.recency, r.frequency, r.monetary,
     ntileIn (sortRecAsc (rfmBase today db)) r.customer_id,
     ntileIn (sortFreqDesc (rfmBase today db)) r.customer_id,
     ntileIn (sortMonDesc (rfmBase today db)) r.customer_id⟩

/-- One row of the `rfm_scores` CTE. -/
structure ScoreRow where
  customer_id : Int
  recency : Int
  frequency : ℕ
  monetary : Rat
  r_score : Int
  f_score : Int
  m_score : Int
deriving DecidableEq, Repr

/-- The projection of the `rfm_scores` CTE: score = 6 - bucket, flipping
each bucket so that 5 is best (`main.py` lines 130-139). -/
def scoreStep (n : NtRow) : ScoreRow :=
  ⟨n.customer_id, n.recency, n.frequency, n.monetary,
   6 - (n.r_ntile : Int), 6 - (n.f_ntile : Int), 6 - (n.m_ntile : Int)⟩

/-- The `rfm_scores` CTE. -/
def rfmScores (today : Int) (db : DB) : List ScoreRow :=
  (rfmNtile today db).map scoreStep

/-- One row of the final `rfm_segmentation` table. -/
structure SegRow where
  customer_id : Int
  recency : Int
  frequency : ℕ
  monetary : Rat
  r_score : Int
  f_score : Int
  m_score : Int
  rfm_score : String
  segment : String
deriving DecidableEq, Repr

/-- The final SELECT: concat the three digits and classify
(`main.py` lines 141-157). -/
def segStep (s : ScoreRow) : SegRow :=
  ⟨s.customer_id, s.recency, s.frequency, s.monetary, s.r_score,
   s.f_score, s.m_score,
   toString s.r_score ++ toString s.f_score ++ toString s.m_score,
   segment s.r_score s.f_score s.m_score⟩

/-- The derived `rfm_segmentation` table. -/
def rfmSegmentation (today : Int) (db : DB) : List SegRow :=
  (rfmScores today db).map segStep

theorem map_id_of {α : Type} (f : α → α) (h : ∀ x, f x = x) :
    ∀ l : List α, l.map f = l := by
  intro l
  induction l with
  | nil => rfl
  | cons a t ih => rw [List.map_cons, h a, ih]

/-- The customers of the derived set are exactly the (deduplicated)
customers of the join. -/
theorem rfmSegmentation_cids (today : Int) (db : DB) :
    (rfmSegmentation today db).map SegRow.customer_id =
      firstDedup ((joined db).map JRow.customer_id) := by
  unfold rfmSegmentation rfmScores rfmNtile rfmBase
  rw [List.map_map, List.map_map, List.map_map, List.map_map]
  exact map_id_of _ (fun c => rfl) _

/-- C9: a customer with zero invoice rows never appears in the derived
`rfm_segmentation` output (the inner join drops them; nothing fails). -/
theorem C9_no_invoice_excluded (today : Int) (db : DB) (c : Int)
    (h : ∀ i ∈ db.invoices, i.customer_id ≠ c) :
    c ∉ (rfmSegmentation today db).map SegRow.customer_id := by
  rw [rfmSegmentation_cids]
  intro hc
  obtain ⟨j, hj, hjc⟩ := List.mem_map.mp (mem_firstDedup.mp hc)
  obtain ⟨ii, _, i, hi, cu, _, p, _, _, h2, _, hj_eq⟩ :=
    mem_joined.mp hj
  apply h i hi
  have : j.customer_id = cu.customer_id := by rw [hj_eq]
  rw [← h2, ← this, hjc]

/-- A customer entity with one invoice but no invoice items. -/
def dbInvOnly : DB :=
  ⟨[⟨1, "UK"⟩], [], [⟨"I1", 0, 1⟩], []⟩

theorem C9_witness :
    (∀ i ∈ dbInvOnly.invoices, i.customer_id ≠ 7) ∧
    7 ∉ (rfmSegmentation 0 dbInvOnly).map SegRow.customer_id :=
  ⟨by decide, C9_no_invoice_excluded 0 dbInvOnly 7 (by decide)⟩

/-- C10: a customer appears in the derived set iff some invoice of
theirs (with the customer present in `customers`) has an item row whose
stock code resolves in `products`: membership is decided by the full
inner join, so an invoice with zero item rows does not qualify — as the
concrete `dbInvOnly` conjunct shows, one invoice and no items leaves the
customer out of the output. -/
theorem C10_membership_via_join (today : Int) (db : DB) (c : Int) :
    (c ∈ (rfmSegmentation today db).map SegRow.customer_id ↔
      ∃ cu ∈ db.customers, cu.customer_id = c ∧
      ∃ i ∈ db.invoices, i.customer_id = c ∧
      ∃ ii ∈ db.items, ii.invoice_no = i.invoice_no ∧
      ∃ p ∈ db.products, p.stock_code = ii.stock_code) ∧
    ((1 : Int) ∈ (rfmSegmentation 0 dbInvOnly).map SegRow.customer_id
      ↔ False) ∧
    (∃ i ∈ dbInvOnly.invoices, i.customer_id = 1) := by
  refine ⟨?_, by decide, by decide⟩
  rw [rfmSegmentation_cids]
  constructor
  · intro hc
    obtain ⟨j, hj, hjc⟩ := List.mem_map.mp (mem_firstDedup.mp hc)
    obtain ⟨ii, hii, i, hi, cu, hcu, p, hp, h1, h2, h3, hj_eq⟩ :=
      mem_joined.mp hj
    have hcj : j.customer_id = cu.customer_id := by rw [hj_eq]
    refine ⟨cu, hcu, hjc ▸ hcj.symm, i, hi, ?_, ii, hii, h1.symm,
      p, hp, h3⟩
    rw [← h2, ← hcj, hjc]
  · rintro ⟨cu, hcu, hcuc, i, hi, hic, ii, hii, h1, p, hp, h3⟩
    apply mem_firstDedup.mpr
    apply List.mem_map.mpr
    refine ⟨⟨cu.customer_id, i.invoice_no, i.invoice_date, ii.quantity,
      p.unit_price⟩, ?_, by simpa using hcuc⟩
    exact mem_joined.mpr ⟨ii, hii, i, hi, cu, hcu, p, hp, h1.symm,
      by rw [hcuc, hic], h3, rfl⟩

/-! ## C6: frequency counts distinct invoices -/

theorem countDistinct_eq_card {α : Type} [DecidableEq α] (l : List α) :
    countDistinct l = l.toFinset.card :=
  (List.card_toFinset l).symm

theorem countDistinct_congr {α : Type} [DecidableEq α] {l₁ l₂ : List α}
    (h : ∀ x, x ∈ l₁ ↔ x ∈ l₂) : countDistinct l₁ = countDistinct l₂ := by
  rw [countDistinct_eq_card, countDistinct_eq_card]
  congr 1
  ext x
  simpa using h x

theorem mem_invoices_buildDB {raw : List RawRow} {i : InvRow}
    (h : i ∈ (buildDB raw).invoices) :
    ∃ cr ∈ cleanRows raw, invProj cr = i := by
  rcases mem_loadTable _ _ _ _ h with h1 | h1
  · exact absurd h1 (List.not_mem_nil _)
  · exact List.mem_map.mp (mem_firstDedup.mp h1)

theorem mem_items_buildDB {raw : List RawRow} {ii : ItemRow}
    (h : ii ∈ (buildDB raw).items) :
    ∃ cr ∈ cleanRows raw, itemProj cr = ii :=
  List.mem_map.mp h

theorem customers_key_buildDB {raw : List RawRow} {cid : Int}
    (h : ∃ cr ∈ cleanRows raw, cr.customerID = cid) :
    ∃ cu ∈ (buildDB raw).customers, cu.customer_id = cid := by
  obtain ⟨cr, hcr, hc⟩ := h
  have hk : keyMem CustRow.customer_id (buildDB raw).customers cid
      = true := by
    apply (keyMem_loadTable _ _ _ _).mpr
    exact Or.inr ⟨custProj cr,
      mem_firstDedup.mpr (List.mem_map_of_mem custProj hcr), hc⟩
  exact (keyMem_iff _ _ _).mp hk

theorem products_key_buildDB {raw : List RawRow} {code : String}
    (h : ∃ cr ∈ cleanRows raw, cr.stockCode = code) :
    ∃ p ∈ (buildDB raw).products, p.stock_code = code := by
  obtain ⟨cr, hcr, hc⟩ := h
  have hk : keyMem ProdRow.stock_code (buildDB raw).products code
      = true := by
    apply (keyMem_loadTable _ _ _ _).mpr
    exact Or.inr ⟨prodProj cr,
      mem_firstDedup.mpr (List.mem_map_of_mem prodProj hcr), hc⟩
  exact (keyMem_iff _ _ _).mp hk

theorem invoices_key_buildDB {raw : List RawRow} {no : String}
    (h : ∃ cr ∈ cleanRows raw, cr.invoiceNo = no) :
    ∃ i ∈ (buildDB raw).invoices, i.invoice_no = no := by
  obtain ⟨cr, hcr, hc⟩ := h
  have hk : keyMem InvRow.invoice_no (buildDB raw).invoices no
      = true := by
    apply (keyMem_loadTable _ _ _ _).mpr
    exact Or.inr ⟨invProj cr,
      mem_firstDedup.mpr (List.mem_map_of_mem invProj hcr), hc⟩
  exact (keyMem_iff _ _ _).mp hk

/-- In a pipeline-built database, the invoice numbers reachable through
the join under a customer are exactly the invoice numbers of that
customer's invoice rows: every invoice row has a witnessing item and
product. -/
theorem joined_invoice_nos (raw : List RawRow) (c : Int) (x : String) :
    (∃ j ∈ groupRows (buildDB raw) c, j.invoice_no = x) ↔
      ∃ i ∈ (buildDB raw).invoices, i.customer_id = c ∧
        i.invoice_no = x := by
  constructor
  · rintro ⟨j, hj, hjx⟩
    obtain ⟨hjm, hjc⟩ := List.mem_filter.mp hj
    obtain ⟨ii, hii, i, hi, cu, hcu, p, hp, h1, h2, h3, hj_eq⟩ :=
      mem_joined.mp hjm
    refine ⟨i, hi, ?_, ?_⟩
    · have : j.customer_id = cu.customer_id := by rw [hj_eq]
      rw [← h2, ← this]
      exact of_decide_eq_true hjc
    · have : j.invoice_no = i.invoice_no := by rw [hj_eq]
      rw [← this, hjx]
  · rintro ⟨i, hi, hic, hix⟩
    obtain ⟨cr, hcr, hproj⟩ := mem_invoices_buildDB hi
    have hino : cr.invoiceNo = i.invoice_no := by rw [← hproj]; rfl
    have hitem : itemProj cr ∈ (buildDB raw).items :=
      List.mem_map_of_mem itemProj hcr
    obtain ⟨cu, hcu, hcuc⟩ := customers_key_buildDB
      ⟨cr, hcr, show cr.customerID = i.customer_id by rw [← hproj]; rfl⟩
    obtain ⟨p, hp, hpc⟩ := products_key_buildDB ⟨cr, hcr, rfl⟩
    refine ⟨⟨cu.customer_id, i.invoice_no, i.invoice_date,
      (itemProj cr).quantity, p.unit_price⟩, ?_, hix⟩
    apply List.mem_filter.mpr
    refine ⟨mem_joined.mpr ⟨itemProj cr, hitem, i, hi, cu, hcu, p, hp,
      ?_, hcuc, ?_, rfl⟩, ?_⟩
    · rw [← hino]; rfl
    · rw [hpc]; rfl
    · exact decide_eq_true (by rw [hcuc, hic])

/-- C6: in a pipeline-built database the frequency of a customer equals
the number of distinct invoice numbers among that customer's invoice
rows, even though it is computed over the join with invoice items and
products; and appending exact duplicates of existing item rows leaves
every frequency unchanged. -/
theorem C6_frequency_distinct_invoices (raw : List RawRow) (c : Int)
    (dups : List ItemRow)
    (hd : ∀ d ∈ dups, d ∈ (buildDB raw).items) :
    frequencyOf (buildDB raw) c =
      countDistinct
        (((buildDB raw).invoices.filter fun i =>
            i.customer_id = c).map InvRow.invoice_no) ∧
    frequencyOf
        { buildDB raw with items := (buildDB raw).items ++ dups } c =
      frequencyOf (buildDB raw) c := by
  constructor
  · apply countDistinct_congr
    intro x
    rw [List.mem_map, List.mem_map]
    constructor
    · rintro ⟨j, hj, hjx⟩
      obtain ⟨i, hi, hic, hix⟩ :=
        (joined_invoice_nos raw c x).mp ⟨j, hj, hjx⟩
      exact ⟨i, List.mem_filter.mpr ⟨hi, decide_eq_true hic⟩, hix⟩
    · rintro ⟨i, hi, hix⟩
      obtain ⟨him, hic⟩ := List.mem_filter.mp hi
      exact (joined_invoice_nos raw c x).mpr
        ⟨i, him, of_decide_eq_true hic, hix⟩
  · apply countDistinct_congr
    intro x
    rw [List.mem_map, List.mem_map]
    have hmem : ∀ j : JRow,
        j ∈ joined { buildDB raw with
          items := (buildDB raw).items ++ dups } ↔
        j ∈ joined (buildDB raw) := by
      intro j
      rw [mem_joined, mem_joined]
      constructor
      · rintro ⟨ii, hii, rest⟩
        rcases List.mem_append.mp hii with h1 | h1
        · exact ⟨ii, h1, rest⟩
        · exact ⟨ii, hd ii h1, rest⟩
      · rintro ⟨ii, hii, rest⟩
        exact ⟨ii, List.mem_append.mpr (Or.inl hii), rest⟩
    constructor
    · rintro ⟨j, hj, hjx⟩
      obtain ⟨hjm, hjc⟩ := List.mem_filter.mp hj
      exact ⟨j, List.mem_filter.mpr ⟨(hmem j).mp hjm, hjc⟩, hjx⟩
    · rintro ⟨j, hj, hjx⟩
      obtain ⟨hjm, hjc⟩ := List.mem_filter.mp hj
      exact ⟨j, List.mem_filter.mpr ⟨(hmem j).mpr hjm, hjc⟩, hjx⟩

theorem C6_witness :
    frequencyOf (buildDB rawExample) 1 =
      countDistinct
        (((buildDB rawExample).invoices.filter fun i =>
            i.customer_id = 1).map InvRow.invoice_no) ∧
    frequencyOf
        { buildDB rawExample with
            items := (buildDB rawExample).items ++ [⟨"I1", "S1", 2⟩] } 1 =
      frequencyOf (buildDB rawExample) 1 :=
  C6_frequency_distinct_invoices rawExample 1 [⟨"I1", "S1", 2⟩]
    (by decide)

/-! ## C4: what the monetary metric actually sums

`SUM(ii.quantity * p.unit_price)` multiplies each item's quantity by the
unit price *stored in the products table* for its stock code — the price
of the first surviving raw row that introduced the stock code — not by
the raw row's own `UnitPrice`. -/

/-- The unit price stored for a stock code (0 if absent). -/
def priceFor (db : DB) (code : String) : Rat :=
  ((db.products.find? fun p => p.stock_code = code).map
    ProdRow.unit_price).getD 0

/-- The invoice row stored for an invoice number (dummy if absent). -/
def invoiceFor (db : DB) (no : String) : InvRow :=
  (db.invoices.find? fun i => i.invoice_no = no).getD ⟨no, 0, 0⟩

/-- The unique joined row generated by one item row in a database whose
key columns are unique and whose references all resolve. -/
def jrowOf (db : DB) (ii : ItemRow) : JRow :=
  ⟨(invoiceFor db ii.invoice_no).customer_id, ii.invoice_no,
   (invoiceFor db ii.invoice_no).invoice_date, ii.quantity,
   priceFor db ii.stock_code⟩

theorem filter_key_eq_singleton {ρ κ : Type} [DecidableEq κ]
    (key : ρ → κ) :
    ∀ {l : List ρ}, (l.map key).Nodup → ∀ {x : ρ} {k : κ}, x ∈ l →
      key x = k → l.filter (fun y => key y = k) = [x] := by
  intro l
  induction l with
  | nil => intro _ x k hx; exact absurd hx (List.not_mem_nil _)
  | cons a t ih =>
      intro hnd x k hx hk
      rw [List.map_cons, List.nodup_cons] at hnd
      rcases List.mem_cons.mp hx with hxa | hxt
      · have hak : key a = k := by rw [← hxa]; exact hk
        rw [List.filter_cons_of_pos (by simpa using hak)]
        have ht : t.filter (fun y => key y = k) = [] := by
          rw [List.filter_eq_nil_iff]
          intro b hb hpb
          apply hnd.1
          rw [hak, ← of_decide_eq_true hpb]
          exact List.mem_map_of_mem key hb
        rw [ht, hxa]
      · have hka : ¬(key a = k) := by
          intro hak
          apply hnd.1
          rw [hak, ← hk]
          exact List.mem_map_of_mem key hxt
        rw [List.filter_cons_of_neg (by simpa using hka)]
        exact ih hnd.2 hxt hk

theorem find?_eq_of_filter_singleton {ρ : Type} {p : ρ → Bool} :
    ∀ {l : List ρ} {x : ρ}, l.filter p = [x] → l.find? p = some x := by
  intro l
  induction l with
  | nil => intro x h; exact absurd h (by simp)
  | cons a t ih =>
      intro x h
      by_cases hp : p a = true
      · rw [List.filter_cons_of_pos hp] at h
        obtain ⟨h1, _⟩ := List.cons_eq_cons.mp h
        rw [List.find?_cons_of_pos _ hp, h1]
      · rw [List.filter_cons_of_neg (by simpa using hp)] at h
        rw [List.find?_cons_of_neg _ (by simpa using hp)]
        exact ih h

theorem flatMap_eq_map_of_singleton {α β : Type} {f : α → List β}
    {g : α → β} :
    ∀ {l : List α}, (∀ a ∈ l, f a = [g a]) → l.flatMap f = l.map g := by
  intro l
  induction l with
  | nil => intro _; rfl
  | cons a t ih =>
      intro h
      rw [List.flatMap_cons, h a (List.mem_cons_self _ _),
        List.map_cons, ih fun b hb => h b (List.mem_cons_of_mem _ hb)]
      rfl

theorem nodup_customers_keys (raw : List RawRow) :
    ((buildDB raw).customers.map CustRow.customer_id).Nodup :=
  nodup_keys_loadTable CustRow.customer_id (custCand raw) [] (by simp)

theorem nodup_products_keys (raw : List RawRow) :
    ((buildDB raw).products.map ProdRow.stock_code).Nodup :=
  nodup_keys_loadTable ProdRow.stock_code (prodCand raw) [] (by simp)

theorem nodup_invoices_keys (raw : List RawRow) :
    ((buildDB raw).invoices.map InvRow.invoice_no).Nodup :=
  nodup_keys_loadTable InvRow.invoice_no (invCand raw) [] (by simp)

/-- In a pipeline-built database every item generates exactly one joined
row: its invoice, that invoice's customer, and its product are all
present and unique by key. -/
theorem joined_buildDB (raw : List RawRow) :
    joined (buildDB raw) =
      (buildDB raw).items.map (jrowOf (buildDB raw)) := by
  apply flatMap_eq_map_of_singleton
  intro ii hii
  obtain ⟨cr, hcr, hproj⟩ := mem_items_buildDB hii
  obtain ⟨i0, hi0, hi0k⟩ := invoices_key_buildDB
    ⟨cr, hcr, show cr.invoiceNo = ii.invoice_no by rw [← hproj]; rfl⟩
  obtain ⟨cr1, hcr1, hproj1⟩ := mem_invoices_buildDB hi0
  obtain ⟨cu0, hcu0, hcu0k⟩ := customers_key_buildDB
    ⟨cr1, hcr1, show cr1.customerID = i0.customer_id by
      rw [← hproj1]; rfl⟩
  obtain ⟨p0, hp0, hp0k⟩ := products_key_buildDB
    ⟨cr, hcr, show cr.stockCode = ii.stock_code by rw [← hproj]; rfl⟩
  have hfi : (buildDB raw).invoices.filter
      (fun i => i.invoice_no = ii.invoice_no) = [i0] :=
    filter_key_eq_singleton InvRow.invoice_no (nodup_invoices_keys raw)
      hi0 hi0k
  have hfc : (buildDB raw).customers.filter
      (fun c => c.customer_id = i0.customer_id) = [cu0] :=
    filter_key_eq_singleton CustRow.customer_id
      (nodup_customers_keys raw) hcu0 hcu0k
  have hfp : (buildDB raw).products.filter
      (fun p => p.stock_code = ii.stock_code) = [p0] :=
    filter_key_eq_singleton ProdRow.stock_code (nodup_products_keys raw)
      hp0 hp0k
  rw [hfi, List.flatMap_cons, List.flatMap_nil, List.append_nil,
    hfc, List.flatMap_cons, List.flatMap_nil, List.append_nil,
    hfp, List.map_cons, List.map_nil]
  have hinv : invoiceFor (buildDB raw) ii.invoice_no = i0 := by
    unfold invoiceFor
    rw [find?_eq_of_filter_singleton hfi]
    rfl
  have hpr : priceFor (buildDB raw) ii.stock_code = p0.unit_price := by
    unfold priceFor
    rw [find?_eq_of_filter_singleton hfp]
    rfl
  unfold jrowOf
  rw [hinv, hpr, hcu0k, hi0k]

/-- Raw data where one stock code appears with two different unit
prices: the products table keeps the first. -/
def rawPriceConflict : List RawRow :=
  [⟨"I1", "A", some "d", 1, 0, 1, some 1, "UK"⟩,
   ⟨"I1", "A", some "d", 1, 0, 2, some 1, "UK"⟩]

/-- Raw data where one invoice number appears with two different
customer ids: the invoices table keeps the first, so the second
customer's item is credited to the first. -/
def rawInvoiceConflict : List RawRow :=
  [⟨"I1", "A", some "d", 1, 0, 1, some 1, "UK"⟩,
   ⟨"I1", "B", some "e", 5, 0, 1, some 2, "UK"⟩]

/-- C4 counterexample: the monetary metric is NOT the sum of each raw
row's own `quantity × unit_price`. With stock code A first seen at
price 1 and re-seen at price 2, the code produces 2 while the claimed
per-row sum is 3; and when an invoice number recurs under a second
customer, that customer's rows are credited elsewhere (0 vs 5). -/
theorem C4_counterexample :
    monetaryOf (buildDB rawPriceConflict) 1 = 2 ∧
    (((cleanRows rawPriceConflict).filter fun r =>
        r.customerID = 1).map fun r =>
        (r.quantity : Rat) * r.unitPrice).sum = 3 ∧
    monetaryOf (buildDB rawPriceConflict) 1 ≠
      (((cleanRows rawPriceConflict).filter fun r =>
          r.customerID = 1).map fun r =>
          (r.quantity : Rat) * r.unitPrice).sum ∧
    monetaryOf (buildDB rawInvoiceConflict) 2 = 0 ∧
    (((cleanRows rawInvoiceConflict).filter fun r =>
        r.customerID = 2).map fun r =>
        (r.quantity : Rat) * r.unitPrice).sum = 5 ∧
    monetaryOf (buildDB rawInvoiceConflict) 2 ≠
      (((cleanRows rawInvoiceConflict).filter fun r =>
          r.customerID = 2).map fun r =>
          (r.quantity : Rat) * r.unitPrice).sum := by
  refine ⟨?_, ?_, ?_, ?_, ?_, ?_⟩ <;>
    · simp [monetaryOf, groupRows, joined, buildDB, itemCand, prodCand,
        invCand, custCand, cleanRows, cleanRow?, firstDedup,
        firstDedupAux, loadTable, insertIfAbsent, keyMem, itemProj,
        prodProj, invProj, custProj, rawPriceConflict,
        rawInvoiceConflict, List.filterMap_cons, List.flatMap_cons,
        List.filter_cons]
      try norm_num

theorem loadTable_firstDedupAux {ρ κ : Type} [DecidableEq ρ]
    [DecidableEq κ] (key : ρ → κ) :
    ∀ (l : List ρ) (seen : List ρ) (init : List ρ),
      (∀ x ∈ l, x ∈ seen → keyMem key init (key x) = true) →
      loadTable key init (firstDedupAux seen l) =
        loadTable key init l := by
  intro l
  induction l with
  | nil => intro seen init _; rfl
  | cons a t ih =>
      intro seen init h
      by_cases ha : a ∈ seen
      · simp only [firstDedupAux]
        rw [if_pos ha, loadTable_cons]
        have hk : keyMem key init (key a) = true :=
          h a (List.mem_cons_self _ _) ha
        have : insertIfAbsent key init a = init := by
          unfold insertIfAbsent; rw [if_pos hk]
        rw [this]
        exact ih seen init fun x hx hs =>
          h x (List.mem_cons_of_mem _ hx) hs
      · simp only [firstDedupAux]
        rw [if_neg ha, loadTable_cons, loadTable_cons]
        apply ih (a :: seen)
        intro x hx hs
        rcases List.mem_cons.mp hs with hxa | hxs
        · apply (keyMem_insertIfAbsent key init a (key x)).mpr
          refine Or.inr ?_
          rw [hxa]
        · apply (keyMem_insertIfAbsent key init a (key x)).mpr
          exact Or.inl (h x (List.mem_cons_of_mem _ hx) hxs)

/-- Deduplicating full tuples before the keyed insert loop does not
change the resulting table. -/
theorem loadTable_firstDedup {ρ κ : Type} [DecidableEq ρ]
    [DecidableEq κ] (key : ρ → κ) (l : List ρ) :
    loadTable key [] (firstDedup l) = loadTable key [] l :=
  loadTable_firstDedupAux key l [] [] fun _ _ h =>
    absurd h (List.not_mem_nil _)

/-- The stored price of a stock code is the price of the first surviving
raw row that introduced it. -/
theorem priceFor_first_seen (raw : List RawRow) (code : String) :
    priceFor (buildDB raw) code =
      (((cleanRows raw).find? fun r => r.stockCode = code).map
        CleanRow.unitPrice).getD 0 := by
  unfold priceFor
  show ((List.find? _ (loadTable ProdRow.stock_code [] (prodCand raw))
      ).map ProdRow.unit_price).getD 0 = _
  unfold prodCand
  rw [loadTable_firstDedup, find?_loadTable, List.find?_nil,
    Option.none_or, List.find?_map]
  show ((((cleanRows raw).find? fun r =>
      (prodProj r).stock_code = code).map prodProj).map
      ProdRow.unit_price).getD 0 = _
  cases hfind : (cleanRows raw).find? fun r =>
      (prodProj r).stock_code = code with
  | none =>
      have : ((cleanRows raw).find? fun r => r.stockCode = code)
          = none := hfind
      rw [this]
      rfl
  | some r =>
      have : ((cleanRows raw).find? fun r => r.stockCode = code)
          = some r := hfind
      rw [this]
      rfl

/-- Under the join, an item row of a clean row is credited to the
customer of the *stored* invoice row for its invoice number; when every
surviving row sharing an invoice number carries the same customer id,
that is the row's own customer. -/
theorem jrowOf_customer (raw : List RawRow)
    (hcons : ∀ r₁ ∈ cleanRows raw, ∀ r₂ ∈ cleanRows raw,
      r₁.invoiceNo = r₂.invoiceNo → r₁.customerID = r₂.customerID)
    (r : CleanRow) (hr : r ∈ cleanRows raw) :
    (jrowOf (buildDB raw) (itemProj r)).customer_id = r.customerID := by
  show (invoiceFor (buildDB raw) (itemProj r).invoice_no).customer_id = _
  obtain ⟨i0, hi0, hi0k⟩ := invoices_key_buildDB ⟨r, hr,
    show r.invoiceNo = (itemProj r).invoice_no from rfl⟩
  have hfi : (buildDB raw).invoices.filter
      (fun i => i.invoice_no = (itemProj r).invoice_no) = [i0] :=
    filter_key_eq_singleton InvRow.invoice_no (nodup_invoices_keys raw)
      hi0 hi0k
  have : invoiceFor (buildDB raw) (itemProj r).invoice_no = i0 := by
    unfold invoiceFor
    rw [find?_eq_of_filter_singleton hfi]
    rfl
  rw [this]
  obtain ⟨cr1, hcr1, hproj1⟩ := mem_invoices_buildDB hi0
  have h1 : cr1.invoiceNo = r.invoiceNo := by
    have : cr1.invoiceNo = i0.invoice_no := by rw [← hproj1]; rfl
    rw [this, hi0k]
    rfl
  have h2 : cr1.customerID = i0.customer_id := by rw [← hproj1]; rfl
  rw [← h2]
  exact hcons cr1 hcr1 r hr h1

/-- C4 amended: provided every surviving raw row sharing an invoice
number carries the same customer id, the monetary metric of a customer
equals the sum over that customer's surviving raw rows of
`quantity × (stored unit price of the row's stock code)` — the price of
the first row that introduced the stock code — not each row's own unit
price. -/
theorem C4_amended_monetary (raw : List RawRow) (c : Int)
    (hcons : ∀ r₁ ∈ cleanRows raw, ∀ r₂ ∈ cleanRows raw,
      r₁.invoiceNo = r₂.invoiceNo → r₁.customerID = r₂.customerID) :
    monetaryOf (buildDB raw) c =
      (((cleanRows raw).filter fun r => r.customerID = c).map
        fun r =>
          (r.quantity : Rat) * priceFor (buildDB raw) r.stockCode).sum
    ∧ ∀ code : String,
        priceFor (buildDB raw) code =
          (((cleanRows raw).find? fun r => r.stockCode = code).map
            CleanRow.unitPrice).getD 0 := by
  refine ⟨?_, priceFor_first_seen raw⟩
  unfold monetaryOf groupRows
  rw [joined_buildDB]
  rw [List.filter_map, List.map_map]
  show ((List.filter _ ((cleanRows raw).map itemProj)).map _).sum = _
  rw [List.filter_map, List.map_map]
  have hfil : (cleanRows raw).filter
      (((fun j => decide (JRow.customer_id j = c)) ∘
        jrowOf (buildDB raw)) ∘ itemProj) =
      (cleanRows raw).filter fun r => r.customerID = c := by
    apply List.filter_congr
    intro r hr
    show decide ((jrowOf (buildDB raw) (itemProj r)).customer_id = c)
      = decide (r.customerID = c)
    rw [jrowOf_customer raw hcons r hr]
  rw [hfil]
  rfl

theorem C4_witness :
    (∀ r₁ ∈ cleanRows rawExample, ∀ r₂ ∈ cleanRows rawExample,
      r₁.invoiceNo = r₂.invoiceNo → r₁.customerID = r₂.customerID) ∧
    (monetaryOf (buildDB rawExample) 1 =
      (((cleanRows rawExample).filter fun r => r.customerID = 1).map
        fun r => (r.quantity : Rat) *
          priceFor (buildDB rawExample) r.stockCode).sum
    ∧ ∀ code : String,
        priceFor (buildDB rawExample) code =
          (((cleanRows rawExample).find? fun r =>
              r.stockCode = code).map CleanRow.unitPrice).getD 0) :=
  ⟨by decide, C4_amended_monetary rawExample 1 (by decide)⟩

/-! ## NTILE(5) arithmetic -/

theorem div_eq_iff_of_pos (k : ℕ) (hk : 0 < k) (n c : ℕ) :
    n / k = c ↔ c * k ≤ n ∧ n < (c + 1) * k := by
  constructor
  · intro h
    refine ⟨(Nat.le_div_iff_mul_le hk).mp (le_of_eq h.symm),
      (Nat.div_lt_iff_lt_mul hk).mp (by omega)⟩
  · rintro ⟨h1, h2⟩
    have ha := (Nat.le_div_iff_mul_le hk).mpr h1
    have hb := (Nat.div_lt_iff_lt_mul hk).mpr h2
    omega

theorem ntileBucketAux_bounds (q s i : ℕ) (hs : s < 5)
    (hi : i < 5 * q + s) :
    1 ≤ (if i < s * (q + 1) then i / (q + 1) + 1
         else (i - s * (q + 1)) / q + s + 1) ∧
    (if i < s * (q + 1) then i / (q + 1) + 1
     else (i - s * (q + 1)) / q + s + 1) ≤ 5 := by
  by_cases h1 : i < s * (q + 1)
  · rw [if_pos h1]
    have hd := (Nat.div_lt_iff_lt_mul
      (show 0 < q + 1 by omega)).mpr h1
    have hd0 : 0 ≤ i / (q + 1) := Nat.zero_le _
    omega
  · rw [if_neg h1]
    rcases Nat.eq_zero_or_pos q with rfl | hq0
    · exfalso; omega
    · obtain ⟨t, ht⟩ : ∃ t, s + t = 5 := ⟨5 - s, by omega⟩
      have e1 : s * (q + 1) = s * q + s := by ring
      have e2 : s * q + t * q = 5 * q := by
        rw [← Nat.add_mul, ht]
      have hlt : i - s * (q + 1) < t * q := by omega
      have hd := (Nat.div_lt_iff_lt_mul hq0).mpr hlt
      have hd0 : 0 ≤ (i - s * (q + 1)) / q := Nat.zero_le _
      omega

/-- Every row of an N-row window falls in a bucket numbered 1 to 5. -/
theorem ntileBucket_bounds (N i : ℕ) (hi : i < N) :
    1 ≤ ntileBucket N i ∧ ntileBucket N i ≤ 5 :=
  ntileBucketAux_bounds (N / 5) (N % 5) i (N.mod_lt (by norm_num))
    (by omega)

theorem ntileBucketAux_char (q s i b : ℕ) (hs : s < 5) (hb1 : 1 ≤ b)
    (hb5 : b ≤ 5) (hi : i < 5 * q + s) :
    ((if i < s * (q + 1) then i / (q + 1) + 1
      else (i - s * (q + 1)) / q + s + 1) = b) ↔
      ((b - 1) * q + min (b - 1) s ≤ i ∧ i < b * q + min b s) := by
  by_cases h1 : i < s * (q + 1)
  · rw [if_pos h1]
    have hd := (Nat.div_lt_iff_lt_mul
      (show 0 < q + 1 by omega)).mpr h1
    have hdiv := div_eq_iff_of_pos (q + 1) (by omega) i (b - 1)
    have hd0 : 0 ≤ i / (q + 1) := Nat.zero_le _
    constructor
    · intro h
      have hbd : i / (q + 1) = b - 1 := by omega
      have hbounds := hdiv.mp hbd
      interval_cases b <;> interval_cases s <;> omega
    · intro h
      have hbounds : (b - 1) * (q + 1) ≤ i ∧
          i < (b - 1 + 1) * (q + 1) := by
        interval_cases b <;> interval_cases s <;> omega
      have := hdiv.mpr hbounds
      omega
  · rw [if_neg h1]
    rcases Nat.eq_zero_or_pos q with rfl | hq0
    · exfalso; omega
    · have e1 : s * (q + 1) = s * q + s := by ring
      have e3 : s * q ≤ 5 * q := Nat.mul_le_mul_right q (le_of_lt hs)
      have hdiv := div_eq_iff_of_pos q hq0 (i - s * (q + 1)) (b - s - 1)
      have hd0 : 0 ≤ (i - s * (q + 1)) / q := Nat.zero_le _
      constructor
      · intro h
        have hbs : s + 1 ≤ b := by omega
        have hbd : (i - s * (q + 1)) / q = b - s - 1 := by omega
        have hbounds := hdiv.mp hbd
        interval_cases b <;> interval_cases s <;> omega
      · intro h
        have hbs : s + 1 ≤ b := by
          interval_cases b <;> interval_cases s <;> omega
        have hbounds : (b - s - 1) * q ≤ i - s * (q + 1) ∧
            i - s * (q + 1) < (b - s - 1 + 1) * q := by
          interval_cases b <;> interval_cases s <;> omega
        have := hdiv.mpr hbounds
        omega

/-- Bucket `b` of an N-row window is exactly the index interval
`[start b, start (b+1))` with `start b = (b-1)⌊N/5⌋ + min (b-1) (N%5)`. -/
theorem ntileBucket_eq_iff (N i b : ℕ) (hi : i < N) (hb1 : 1 ≤ b)
    (hb5 : b ≤ 5) :
    ntileBucket N i = b ↔
      ((b - 1) * (N / 5) + min (b - 1) (N % 5) ≤ i ∧
       i < b * (N / 5) + min b (N % 5)) :=
  ntileBucketAux_char (N / 5) (N % 5) i b (N.mod_lt (by norm_num))
    hb1 hb5 (by omega)

theorem length_filter_range (lo hi n : ℕ) :
    ((List.range n).filter fun i => decide (lo ≤ i ∧ i < hi)).length =
      min hi n - min lo n := by
  induction n with
  | zero => simp
  | succ n ih =>
      rw [List.range_succ, List.filter_append, List.length_append, ih]
      by_cases h : lo ≤ n ∧ n < hi
      · rw [List.filter_cons_of_pos (by simpa using h)]
        simp only [List.filter_nil, List.length_cons, List.length_nil]
        omega
      · rw [List.filter_cons_of_neg (by simpa using h)]
        simp only [List.filter_nil, List.length_nil]
        omega

/-- The number of positions of an N-row window that NTILE(5) puts in
bucket `b`: `⌊N/5⌋ + 1` for the first `N % 5` buckets, `⌊N/5⌋` for the
rest. -/
theorem count_range_ntileBucket (N b : ℕ) (hb1 : 1 ≤ b) (hb5 : b ≤ 5) :
    ((List.range N).map (ntileBucket N)).count b =
      N / 5 + if b ≤ N % 5 then 1 else 0 := by
  have hcong : ∀ x ∈ List.range N,
      ((fun j => j == b) ∘ ntileBucket N) x =
        decide ((b - 1) * (N / 5) + min (b - 1) (N % 5) ≤ x ∧
          x < b * (N / 5) + min b (N % 5)) := by
    intro x hx
    have hx' := List.mem_range.mp hx
    rw [Bool.eq_iff_iff]
    simp only [Function.comp_apply, beq_iff_eq, decide_eq_true_eq]
    exact ntileBucket_eq_iff N x b hx' hb1 hb5
  rw [List.count, List.countP_map, List.countP_eq_length_filter,
    List.filter_congr hcong, length_filter_range]
  interval_cases b <;> split_ifs <;> omega

/-! ## Bridging NTILE arithmetic to the pipeline -/

theorem findIdx_key_eq {α κ : Type} [DecidableEq κ] (key : α → κ)
    (c : κ) :
    ∀ (l : List α), (l.map key).Nodup → ∀ (i : ℕ) (hi : i < l.length),
      key (l.get ⟨i, hi⟩) = c →
      l.findIdx (fun r => key r = c) = i := by
  intro l
  induction l with
  | nil => intro _ i hi; exact absurd hi (by simp)
  | cons a t ih =>
      intro hnd i hi hc
      rw [List.map_cons, List.nodup_cons] at hnd
      cases i with
      | zero =>
          have hc' : key a = c := hc
          simp [List.findIdx_cons, hc']
      | succ j =>
          have hj : j < t.length := by simpa using hi
          have hc' : key (t.get ⟨j, hj⟩) = c := hc
          have hne : ¬(key a = c) := by
            intro hcontra
            apply hnd.1
            rw [hcontra, ← hc']
            exact List.mem_map_of_mem key (t.get_mem j hj)
          simp only [List.findIdx_cons, hne, decide_False, cond_false]
          exact congrArg (· + 1) (ih hnd.2 j hj hc')

/-- In a window with unique customer ids, the row at sorted position `i`
receives `NTILE` bucket `ntileBucket N i`. -/
theorem map_ntileIn (sorted : List RFMBase)
    (hnd : (sorted.map RFMBase.customer_id).Nodup) :
    (sorted.map fun r => ntileIn sorted r.customer_id) =
      (List.range sorted.length).map (ntileBucket sorted.length) := by
  apply List.ext_getElem
  · simp
  · intro i h1 h2
    rw [List.getElem_map, List.getElem_map, List.getElem_range]
    have hi : i < sorted.length := by simpa using h1
    unfold ntileIn
    congr 1
    exact findIdx_key_eq RFMBase.customer_id _ sorted hnd i hi rfl

theorem ntileIn_bounds (sorted : List RFMBase)
    (hnd : (sorted.map RFMBase.customer_id).Nodup) (c : Int)
    (hc : c ∈ sorted.map RFMBase.customer_id) :
    1 ≤ ntileIn sorted c ∧ ntileIn sorted c ≤ 5 := by
  obtain ⟨r, hr, hrc⟩ := List.mem_map.mp hc
  obtain ⟨⟨i, hi⟩, hget⟩ := List.mem_iff_get.mp hr
  have hidx : sorted.findIdx (fun x => x.customer_id = c) = i :=
    findIdx_key_eq RFMBase.customer_id c sorted hnd i hi
      (by rw [hget]; exact hrc)
  unfold ntileIn
  rw [hidx]
  exact ntileBucket_bounds sorted.length i hi

theorem rfmBase_cids_nodup (today : Int) (db : DB) :
    ((rfmBase today db).map RFMBase.customer_id).Nodup := by
  unfold rfmBase
  rw [List.map_map,
    map_id_of (RFMBase.customer_id ∘ fun c =>
      (⟨c, recencyOf today db c, frequencyOf db c, monetaryOf db c⟩ :
        RFMBase)) (fun c => rfl)]
  exact nodup_firstDedup _

/-- Bucket counts along one ordering are the positional NTILE counts. -/
theorem count_ntileIn_sorted (base : List RFMBase)
    (hnd : (base.map RFMBase.customer_id).Nodup)
    (le : RFMBase → RFMBase → Prop) [DecidableRel le] (b : ℕ) :
    ((base.map fun r =>
        ntileIn (List.insertionSort le base) r.customer_id).count b) =
      ((List.range base.length).map (ntileBucket base.length)).count b
    := by
  have hperm : List.Perm (List.insertionSort le base) base :=
    List.perm_insertionSort le base
  have hnd' :
      ((List.insertionSort le base).map RFMBase.customer_id).Nodup :=
    ((hperm.map RFMBase.customer_id).nodup_iff).mpr hnd
  have hcnt := (hperm.map fun r =>
    ntileIn (List.insertionSort le base) r.customer_id).count_eq b
  rw [← hcnt, map_ntileIn _ hnd', hperm.length_eq]

theorem rfmNtile_map_r (today : Int) (db : DB) :
    (rfmNtile today db).map NtRow.r_ntile =
      (rfmBase today db).map fun r =>
        ntileIn (sortRecAsc (rfmBase today db)) r.customer_id := by
  unfold rfmNtile
  rw [List.map_map]
  rfl

theorem rfmNtile_map_f (today : Int) (db : DB) :
    (rfmNtile today db).map NtRow.f_ntile =
      (rfmBase today db).map fun r =>
        ntileIn (sortFreqDesc (rfmBase today db)) r.customer_id := by
  unfold rfmNtile
  rw [List.map_map]
  rfl

theorem rfmNtile_map_m (today : Int) (db : DB) :
    (rfmNtile today db).map NtRow.m_ntile =
      (rfmBase today db).map fun r =>
        ntileIn (sortMonDesc (rfmBase today db)) r.customer_id := by
  unfold rfmNtile
  rw [List.map_map]
  rfl

/-- The count of rows put in r-bucket `b` by the `rfm_ntile` CTE. -/
def rBucketCount (today : Int) (db : DB) (b : ℕ) : ℕ :=
  ((rfmNtile today db).map NtRow.r_ntile).count b

/-- The count of rows put in f-bucket `b` by the `rfm_ntile` CTE. -/
def fBucketCount (today : Int) (db : DB) (b : ℕ) : ℕ :=
  ((rfmNtile today db).map NtRow.f_ntile).count b

/-- The count of rows put in m-bucket `b` by the `rfm_ntile` CTE. -/
def mBucketCount (today : Int) (db : DB) (b : ℕ) : ℕ :=
  ((rfmNtile today db).map NtRow.m_ntile).count b

theorem rBucketCount_eq (today : Int) (db : DB) (b : ℕ) (hb1 : 1 ≤ b)
    (hb5 : b ≤ 5) :
    rBucketCount today db b = (rfmBase today db).length / 5 +
      if b ≤ (rfmBase today db).length % 5 then 1 else 0 := by
  unfold rBucketCount
  rw [rfmNtile_map_r]
  unfold sortRecAsc
  rw [count_ntileIn_sorted _ (rfmBase_cids_nodup today db) _ b,
    count_range_ntileBucket _ b hb1 hb5]

theorem fBucketCount_eq (today : Int) (db : DB) (b : ℕ) (hb1 : 1 ≤ b)
    (hb5 : b ≤ 5) :
    fBucketCount today db b = (rfmBase today db).length / 5 +
      if b ≤ (rfmBase today db).length % 5 then 1 else 0 := by
  unfold fBucketCount
  rw [rfmNtile_map_f]
  unfold sortFreqDesc
  rw [count_ntileIn_sorted _ (rfmBase_cids_nodup today db) _ b,
    count_range_ntileBucket _ b hb1 hb5]

theorem mBucketCount_eq (today : Int) (db : DB) (b : ℕ) (hb1 : 1 ≤ b)
    (hb5 : b ≤ 5) :
    mBucketCount today db b = (rfmBase today db).length / 5 +
      if b ≤ (rfmBase today db).length % 5 then 1 else 0 := by
  unfold mBucketCount
  rw [rfmNtile_map_m]
  unfold sortMonDesc
  rw [count_ntileIn_sorted _ (rfmBase_cids_nodup today db) _ b,
    count_range_ntileBucket _ b hb1 hb5]

/-- C3: along each of the three ranking dimensions, the NTILE(5) stage
partitions the N qualifying customers into buckets 1..5 of size ⌊N/5⌋ or
⌈N/5⌉, the five bucket sizes sum to N, and earlier buckets are at least
as large as later ones. -/
theorem C3_quintile_partition (today : Int) (db : DB)
    (_hN : 1 ≤ (rfmBase today db).length) :
    (∀ b, 1 ≤ b → b ≤ 5 →
      ((rBucketCount today db b = (rfmBase today db).length / 5 ∨
        rBucketCount today db b = ((rfmBase today db).length + 4) / 5) ∧
       (fBucketCount today db b = (rfmBase today db).length / 5 ∨
        fBucketCount today db b = ((rfmBase today db).length + 4) / 5) ∧
       (mBucketCount today db b = (rfmBase today db).length / 5 ∨
        mBucketCount today db b = ((rfmBase today db).length + 4) / 5)))
    ∧
    (rBucketCount today db 1 + rBucketCount today db 2 +
      rBucketCount today db 3 + rBucketCount today db 4 +
      rBucketCount today db 5 = (rfmBase today db).length ∧
     fBucketCount today db 1 + fBucketCount today db 2 +
      fBucketCount today db 3 + fBucketCount today db 4 +
      fBucketCount today db 5 = (rfmBase today db).length ∧
     mBucketCount today db 1 + mBucketCount today db 2 +
      mBucketCount today db 3 + mBucketCount today db 4 +
      mBucketCount today db 5 = (rfmBase today db).length) ∧
    (∀ b b', 1 ≤ b → b ≤ b' → b' ≤ 5 →
      (rBucketCount today db b' ≤ rBucketCount today db b ∧
       fBucketCount today db b' ≤ fBucketCount today db b ∧
       mBucketCount today db b' ≤ mBucketCount today db b)) := by
  refine ⟨?_, ?_, ?_⟩
  · intro b hb1 hb5
    rw [rBucketCount_eq today db b hb1 hb5,
      fBucketCount_eq today db b hb1 hb5,
      mBucketCount_eq today db b hb1 hb5]
    refine ⟨?_, ?_, ?_⟩ <;> split_ifs with h <;> omega
  · rw [rBucketCount_eq today db 1 (by norm_num) (by norm_num),
      rBucketCount_eq today db 2 (by norm_num) (by norm_num),
      rBucketCount_eq today db 3 (by norm_num) (by norm_num),
      rBucketCount_eq today db 4 (by norm_num) (by norm_num),
      rBucketCount_eq today db 5 (by norm_num) (by norm_num),
      fBucketCount_eq today db 1 (by norm_num) (by norm_num),
      fBucketCount_eq today db 2 (by norm_num) (by norm_num),
      fBucketCount_eq today db 3 (by norm_num) (by norm_num),
      fBucketCount_eq today db 4 (by norm_num) (by norm_num),
      fBucketCount_eq today db 5 (by norm_num) (by norm_num),
      mBucketCount_eq today db 1 (by norm_num) (by norm_num),
      mBucketCount_eq today db 2 (by norm_num) (by norm_num),
      mBucketCount_eq today db 3 (by norm_num) (by norm_num),
      mBucketCount_eq today db 4 (by norm_num) (by norm_num),
      mBucketCount_eq today db 5 (by norm_num) (by norm_num)]
    refine ⟨?_, ?_, ?_⟩ <;> split_ifs <;> omega
  · intro b b' hb1 hbb hb5
    rw [rBucketCount_eq today db b hb1 (by omega),
      rBucketCount_eq today db b' (by omega) hb5,
      fBucketCount_eq today db b hb1 (by omega),
      fBucketCount_eq today db b' (by omega) hb5,
      mBucketCount_eq today db b hb1 (by omega),
      mBucketCount_eq today db b' (by omega) hb5]
    refine ⟨?_, ?_, ?_⟩ <;> split_ifs <;> omega

/-- A minimal database with one fully linked customer. -/
def dbW : DB :=
  ⟨[⟨1, "UK"⟩], [⟨"S1", "d", 3⟩], [⟨"I1", 5, 1⟩], [⟨"I1", "S1", 2⟩]⟩

theorem C3_witness :
    1 ≤ (rfmBase 10 dbW).length ∧
    (rBucketCount 10 dbW 1 + rBucketCount 10 dbW 2 +
      rBucketCount 10 dbW 3 + rBucketCount 10 dbW 4 +
      rBucketCount 10 dbW 5 = (rfmBase 10 dbW).length ∧
     fBucketCount 10 dbW 1 + fBucketCount 10 dbW 2 +
      fBucketCount 10 dbW 3 + fBucketCount 10 dbW 4 +
      fBucketCount 10 dbW 5 = (rfmBase 10 dbW).length ∧
     mBucketCount 10 dbW 1 + mBucketCount 10 dbW 2 +
      mBucketCount 10 dbW 3 + mBucketCount 10 dbW 4 +
      mBucketCount 10 dbW 5 = (rfmBase 10 dbW).length) :=
  ⟨by decide, (C3_quintile_partition 10 dbW (by decide)).2.1⟩

/-- C2: every row of the `rfm_ntile` CTE carries buckets in 1..5, and
the `rfm_scores` projection maps it to scores with
score = 6 - bucket — so score + bucket = 6 in every dimension, bucket 1
giving score 5 and bucket 5 giving score 1. -/
theorem C2_score_inversion (today : Int) (db : DB) :
    ∀ n ∈ rfmNtile today db,
      (1 ≤ n.r_ntile ∧ n.r_ntile ≤ 5 ∧ 1 ≤ n.f_ntile ∧ n.f_ntile ≤ 5 ∧
       1 ≤ n.m_ntile ∧ n.m_ntile ≤ 5) ∧
      ((scoreStep n).r_score = 6 - (n.r_ntile : Int) ∧
       (scoreStep n).f_score = 6 - (n.f_ntile : Int) ∧
       (scoreStep n).m_score = 6 - (n.m_ntile : Int)) ∧
      ((scoreStep n).r_score + (n.r_ntile : Int) = 6 ∧
       (scoreStep n).f_score + (n.f_ntile : Int) = 6 ∧
       (scoreStep n).m_score + (n.m_ntile : Int) = 6) ∧
      (1 ≤ (scoreStep n).r_score ∧ (scoreStep n).r_score ≤ 5 ∧
       1 ≤ (scoreStep n).f_score ∧ (scoreStep n).f_score ≤ 5 ∧
       1 ≤ (scoreStep n).m_score ∧ (scoreStep n).m_score ≤ 5) := by
  intro n hn
  obtain ⟨r, hr, hmk⟩ := List.mem_map.mp hn
  have hnd := rfmBase_cids_nodup today db
  have hcid : r.customer_id ∈
      (rfmBase today db).map RFMBase.customer_id :=
    List.mem_map_of_mem _ hr
  have hbR := ntileIn_bounds (sortRecAsc (rfmBase today db))
    (((List.perm_insertionSort _ _).map RFMBase.customer_id
      ).nodup_iff.mpr hnd)
    r.customer_id
    (((List.perm_insertionSort _ _).map RFMBase.customer_id
      ).mem_iff.mpr hcid)
  have hbF := ntileIn_bounds (sortFreqDesc (rfmBase today db))
    (((List.perm_insertionSort _ _).map RFMBase.customer_id
      ).nodup_iff.mpr hnd)
    r.customer_id
    (((List.perm_insertionSort _ _).map RFMBase.customer_id
      ).mem_iff.mpr hcid)
  have hbM := ntileIn_bounds (sortMonDesc (rfmBase today db))
    (((List.perm_insertionSort _ _).map RFMBase.customer_id
      ).nodup_iff.mpr hnd)
    r.customer_id
    (((List.perm_insertionSort _ _).map RFMBase.customer_id
      ).mem_iff.mpr hcid)
  subst hmk
  simp only [scoreStep]
  refine ⟨⟨hbR.1, hbR.2, hbF.1, hbF.2, hbM.1, hbM.2⟩,
    ⟨trivial, trivial, trivial⟩, ?_, ?_⟩ <;>
    refine ⟨?_, ?_, ?_⟩ <;> omega

theorem C2_witness :
    (⟨1, 5, 1, 6, 1, 1, 1⟩ : NtRow) ∈ rfmNtile 10 dbW ∧
    ((1 ≤ (1 : ℕ) ∧ (1 : ℕ) ≤ 5 ∧ 1 ≤ (1 : ℕ) ∧ (1 : ℕ) ≤ 5 ∧
      1 ≤ (1 : ℕ) ∧ (1 : ℕ) ≤ 5) ∧
     ((scoreStep ⟨1, 5, 1, 6, 1, 1, 1⟩).r_score = 6 - ((1 : ℕ) : Int) ∧
      (scoreStep ⟨1, 5, 1, 6, 1, 1, 1⟩).f_score = 6 - ((1 : ℕ) : Int) ∧
      (scoreStep ⟨1, 5, 1, 6, 1, 1, 1⟩).m_score = 6 - ((1 : ℕ) : Int)) ∧
     ((scoreStep ⟨1, 5, 1, 6, 1, 1, 1⟩).r_score + ((1 : ℕ) : Int) = 6 ∧
      (scoreStep ⟨1, 5, 1, 6, 1, 1, 1⟩).f_score + ((1 : ℕ) : Int) = 6 ∧
      (scoreStep ⟨1, 5, 1, 6, 1, 1, 1⟩).m_score + ((1 : ℕ) : Int) = 6) ∧
     (1 ≤ (scoreStep ⟨1, 5, 1, 6, 1, 1, 1⟩).r_score ∧
      (scoreStep ⟨1, 5, 1, 6, 1, 1, 1⟩).r_score ≤ 5 ∧
      1 ≤ (scoreStep ⟨1, 5, 1, 6, 1, 1, 1⟩).f_score ∧
      (scoreStep ⟨1, 5, 1, 6, 1, 1, 1⟩).f_score ≤ 5 ∧
      1 ≤ (scoreStep ⟨1, 5, 1, 6, 1, 1, 1⟩).m_score ∧
      (scoreStep ⟨1, 5, 1, 6, 1, 1, 1⟩).m_score ≤ 5)) := by
  have hmem : (⟨1, 5, 1, 6, 1, 1, 1⟩ : NtRow) ∈ rfmNtile 10 dbW := by
    norm_num [rfmNtile, rfmBase, joined, dbW, groupRows, recencyOf,
      frequencyOf, monetaryOf, countDistinct, listMax, firstDedup,
      firstDedupAux, ntileIn, ntileBucket, sortRecAsc, sortFreqDesc,
      sortMonDesc, List.insertionSort, List.orderedInsert,
      List.findIdx_cons, List.flatMap_cons, List.filter_cons]
  exact ⟨hmem, C2_score_inversion 10 dbW _ hmem⟩

end RFMPipe
